import Mathlib

/-
Verification of the webpage semantic parser (`webpage_semantic_parser.py`).

The development shallowly embeds the two halves of the program:

* the crawl traversal engine (`traverse_links`, `_should_follow_link`),
  with page fetching + parsing abstracted as an oracle
  `fetch : String → Except String Page` (fetching and markup parsing are
  external collaborators of the program);
* the single-page semantic extraction pipeline (`parse_webpage` and its
  helpers) over an explicit document-tree type `HtmlNode` that models the
  navigable tree produced by the markup-parsing collaborator.

Python strings are modelled by `String`/`List Char`; Python sets by lists
threaded through the recursion (the program mutates one shared `visited`
set, so state is passed explicitly); Python exceptions by `Except`/`Option`.
All definitions are executable and kernel-reducible.
-/

/-! ### String utilities

Kernel-reducible models of the Python string operations the source uses
(`str.lower`, `str.strip`, `str.endswith`, `str.replace`, `str.split`,
`re.search` with alternations of literals under `re.IGNORECASE`). -/

/-- Lowercase a string, as a character list (model of `str.lower`). -/
def lowerL (s : String) : List Char := s.toList.map Char.toLower

/-- Lowercase a string (model of `str.lower`). -/
def lowerS (s : String) : String := String.mk (lowerL s)

/-- Strip leading and trailing whitespace from a character list. -/
def trimL (l : List Char) : List Char :=
  ((l.dropWhile Char.isWhitespace).reverse.dropWhile Char.isWhitespace).reverse

/-- Strip leading and trailing whitespace (model of `str.strip`). -/
def trimS (s : String) : String := String.mk (trimL s.toList)

/-- Does `s` end with `suffix`? (model of `str.endswith`). -/
def endsWithS (s suffix : String) : Bool := suffix.toList.isSuffixOf s.toList

/-- Is `needle` a contiguous sublist of `haystack`? -/
def isInfixL (needle : List Char) : List Char → Bool
  | [] => needle.isPrefixOf []
  | c :: rest => needle.isPrefixOf (c :: rest) || isInfixL needle rest

/-- Case-insensitive substring test: model of `re.search(kw, s, re.I)` for a
literal keyword `kw` (the source's patterns are alternations of literals). -/
def containsSub (needle haystack : String) : Bool :=
  isInfixL (lowerL needle) (lowerL haystack)

/-- Model of `re.search(pat, s, re.I)` where `pat` is an alternation of the
literal keywords `kws`: some alternative occurs in `s` case-insensitively. -/
def reSearchI (kws : List String) (s : String) : Bool :=
  kws.any (fun kw => containsSub kw s)

/-- Helper for `splitWs`: accumulate the current chunk (reversed). -/
def splitWsAux : List Char → List Char → List (List Char)
  | [], acc => if acc = [] then [] else [acc.reverse]
  | c :: rest, acc =>
    if c.isWhitespace then
      if acc = [] then splitWsAux rest [] else acc.reverse :: splitWsAux rest []
    else splitWsAux rest (c :: acc)

/-- Split on runs of whitespace, dropping empty chunks (model of
`str.split()`, which BeautifulSoup uses for multi-valued attributes). -/
def splitWs (l : List Char) : List (List Char) := splitWsAux l []

/-- Fuelled worker for `replaceL`; one unit of fuel per consumed character. -/
def replaceFuel (pat repl : List Char) : Nat → List Char → List Char
  | 0, l => l
  | _ + 1, [] => []
  | fuel + 1, c :: rest =>
    if pat ≠ [] ∧ pat.isPrefixOf (c :: rest) then
      repl ++ replaceFuel pat repl fuel ((c :: rest).drop pat.length)
    else c :: replaceFuel pat repl fuel rest

/-- Replace every (non-overlapping, left-to-right) occurrence of `pat` by
`repl` (model of `str.replace`; with an empty pattern the source only ever
passes an empty replacement, for which `str.replace` is the identity). -/
def replaceL (pat repl l : List Char) : List Char := replaceFuel pat repl l.length l

/-- Model of `str.replace` on strings. -/
def replaceS (s pat repl : String) : String :=
  String.mk (replaceL pat.toList repl.toList s.toList)

/-! ### URL parsing

Model of `urllib.parse.urlparse` (an external stdlib collaborator), following
CPython's `urlsplit`: optional scheme before the first `:` (lowercased, must
start with a letter and consist of scheme characters), optional `//netloc`
up to the next `/`, `?` or `#`, then the fragment after the first `#` and the
query after the first `?`. -/

/-- The five URL components the program consumes. -/
structure UrlParts where
  scheme : String
  netloc : String
  path : String
  query : String
  fragment : String
deriving DecidableEq, Repr

/-- Characters allowed in a URL scheme (CPython's `scheme_chars`). -/
def schemeChar (c : Char) : Bool :=
  c.isAlpha || c.isDigit || c = '+' || c = '-' || c = '.'

/-- Split a character list at the first occurrence of `c`; `none` when `c`
does not occur. -/
def splitAtChar (c : Char) (l : List Char) : List Char × Option (List Char) :=
  let p := l.span (fun x => x != c)
  match p.2 with
  | [] => (p.1, none)
  | _ :: tl => (p.1, some tl)

/-- Model of `urllib.parse.urlparse` for the components the program reads. -/
def urlparse (url : String) : UrlParts :=
  let cs := url.toList
  let sp :=
    match splitAtChar ':' cs with
    | (pre, some after) =>
      if pre ≠ [] ∧ (pre.headD ' ').isAlpha ∧ pre.all schemeChar
      then (pre.map Char.toLower, after)
      else (([] : List Char), cs)
    | (_, none) => (([] : List Char), cs)
  let np :=
    if sp.2.take 2 = ['/', '/'] then
      (sp.2.drop 2).span (fun x => x != '/' && x != '?' && x != '#')
    else (([] : List Char), sp.2)
  let fp :=
    match splitAtChar '#' np.2 with
    | (pre, some f) => (pre, f)
    | (pre, none) => (pre, ([] : List Char))
  let qp :=
    match splitAtChar '?' fp.1 with
    | (pre, some q) => (pre, q)
    | (pre, none) => (pre, ([] : List Char))
  { scheme := String.mk sp.1
    netloc := String.mk np.1
    path := String.mk qp.1
    query := String.mk qp.2
    fragment := String.mk fp.2 }

/-- Model of `urllib.parse.urljoin` (external stdlib collaborator) for the
cases arising in the program: an absolute reference wins, a scheme-relative
or root-relative reference is resolved against the base's scheme/netloc, and
any other reference is appended to the directory of the base's path. -/
def urljoin (base url : String) : String :=
  let bu := urlparse base
  if url = "" then base
  else if (urlparse url).scheme ≠ "" then url
  else if url.toList.take 2 = ['/', '/'] then bu.scheme ++ ":" ++ url
  else if url.toList.take 1 = ['/'] then bu.scheme ++ "://" ++ bu.netloc ++ url
  else
    let dir := (bu.path.toList.reverse.dropWhile (fun c => c != '/')).reverse
    bu.scheme ++ "://" ++ bu.netloc ++ String.mk dir ++ url

/-! ### Link admissibility (`_should_follow_link`, source lines 488-508)

The source wraps the checks in `try/except` and returns `False` on any
exception raised by `urlparse`; the model's `urlparse` is total, so the
except branch has no counterpart. `self.base_url` is passed explicitly. -/

/-- The denylisted extensions (`skip_extensions`, source line 497). -/
def skip_extensions : List String := [".pdf", ".jpg", ".png", ".gif", ".zip"]

/-- Embedding of `_should_follow_link` (source lines 488-508): reject
non-HTTP(S) schemes, then URLs whose lowercased *full text* ends with a
denylisted extension, then URLs whose netloc differs from the netloc of the
parser's current `base_url`. -/
def should_follow_link (base_url url : String) : Bool :=
  let parsed := urlparse url
  if ¬ (parsed.scheme = "http" ∨ parsed.scheme = "https") then false
  else if skip_extensions.any (fun ext => endsWithS (lowerS url) ext) then false
  else if parsed.netloc ≠ (urlparse base_url).netloc then false
  else true

/-! ### Crawl traversal engine (`traverse_links`, source lines 449-486)

Fetching + parsing one page (`parse_webpage`) is abstracted as an oracle
`fetch : String → Except String Page` returning the page title and the
extracted link list (`page_data['all_links']`), or the exception message.
`parse_webpage` sets `self.base_url = url` once the page text is obtained
(source line 109), before any link of that page is filtered; on a fetch
failure `base_url` keeps its previous value.  The mutable instance state the
engine reads (`visited`, `base_url`) is threaded as an explicit
`CrawlState`; `visited` is a list so that insertion multiplicity is
observable (the program uses a Python `set`). -/

/-- What the crawl consumes from one successfully parsed page. -/
structure Page where
  title : Option String
  links : List String

/-- The shared mutable state of one traversal: the `visited` set and the
parser's `base_url` attribute. -/
structure CrawlState where
  visited : List String
  base_url : String

/-- One node of the returned crawl tree.  A success node carries
`title` and `error = none`; an error node carries `error = some msg` and
`title = none` (the source's dicts have disjoint key sets). -/
inductive CrawlNode where
  | mk (url : String) (title : Option String) (error : Option String)
      (links : List CrawlNode)

/-- The node's URL. -/
def CrawlNode.url : CrawlNode → String
  | .mk u _ _ _ => u

/-- The node's page title (success nodes only). -/
def CrawlNode.title : CrawlNode → Option String
  | .mk _ t _ _ => t

/-- The node's error message (error nodes only). -/
def CrawlNode.error : CrawlNode → Option String
  | .mk _ _ e _ => e

/-- The node's children, in link-encounter order. -/
def CrawlNode.links : CrawlNode → List CrawlNode
  | .mk _ _ _ ls => ls

/-- Embedding of the link loop of `traverse_links` (source lines 479-484):
process the links left to right; a link is recursed into only when it is not
yet visited and `_should_follow_link` admits it against the *current*
`base_url`; a truthy (`some`) child result is appended.  `recur` is the
recursive call at `depth - 1`. -/
def process_links (recur : String → CrawlState → Option CrawlNode × CrawlState) :
    List String → CrawlState → List CrawlNode × CrawlState
  | [], st => ([], st)
  | l :: ls, st =>
    if l ∉ st.visited ∧ should_follow_link st.base_url l = true then
      match recur l st with
      | (some c, st1) =>
        let r := process_links recur ls st1
        (c :: r.1, r.2)
      | (none, st1) => process_links recur ls st1
    else
      process_links recur ls st

/-- Embedding of `traverse_links` (source lines 449-486).  The Python
guard `if depth == 0 or url in visited` is split over the two `depth`
patterns (at depth 0 both the page-cap guard and the depth guard return
the empty result, so the two branches coincide); the page-cap check comes
first as in the source.  The empty dict `{}` the source returns from the
guards is `none`; a non-empty node dict is `some`. -/
def traverse_links (fetch : String → Except String Page) (maxPages : Nat) :
    Nat → String → CrawlState → Option CrawlNode × CrawlState
  | 0, _, st =>
    if st.visited.length ≥ maxPages then (none, st) else (none, st)
  | d + 1, url, st =>
    if st.visited.length ≥ maxPages then (none, st)
    else if url ∈ st.visited then (none, st)
    else
      let st1 : CrawlState := { st with visited := url :: st.visited }
      match fetch url with
      | .error e => (some (.mk url none (some e) []), st1)
      | .ok page =>
        let st2 : CrawlState := { st1 with base_url := url }
        let r := process_links
          (fun l s => traverse_links fetch maxPages d l s) page.links st2
        (some (.mk url page.title none r.1), r.2)

/-! ### Crawl-tree observations -/

mutual

/-- All URLs of a crawl tree, root first, in insertion order. -/
def treeUrls : CrawlNode → List String
  | .mk u _ _ ls => u :: treeUrlsList ls

/-- All URLs of a forest of crawl trees. -/
def treeUrlsList : List CrawlNode → List String
  | [] => []
  | n :: ns => treeUrls n ++ treeUrlsList ns

end

mutual

/-- All nodes of a crawl tree (the tree's positions), root first. -/
def allNodes : CrawlNode → List CrawlNode
  | .mk u t e ls => .mk u t e ls :: allNodesList ls

/-- All nodes of a forest of crawl trees. -/
def allNodesList : List CrawlNode → List CrawlNode
  | [] => []
  | n :: ns => allNodes n ++ allNodesList ns

end

/-- URLs of an optional crawl tree (`none` is the empty result `{}`). -/
def urlsOf : Option CrawlNode → List String
  | none => []
  | some n => treeUrls n

/-- Nodes of an optional crawl tree. -/
def nodesOf : Option CrawlNode → List CrawlNode
  | none => []
  | some n => allNodes n

/-! ### Unfolding lemmas for the traversal -/

/-- `process_links` on an empty link list does nothing. -/
theorem process_links_nil (recur : String → CrawlState → Option CrawlNode × CrawlState)
    (st : CrawlState) : process_links recur [] st = ([], st) := rfl

/-- A link that is already visited or filtered out is skipped. -/
theorem process_links_cons_skip
    (recur : String → CrawlState → Option CrawlNode × CrawlState)
    (l : String) (ls : List String) (st : CrawlState)
    (h : ¬ (l ∉ st.visited ∧ should_follow_link st.base_url l = true)) :
    process_links recur (l :: ls) st = process_links recur ls st := by
  simp only [process_links]; rw [if_neg h]

/-- An admitted link whose recursion yields the empty result contributes no
child; the remaining links run from the updated state. -/
theorem process_links_cons_none
    (recur : String → CrawlState → Option CrawlNode × CrawlState)
    (l : String) (ls : List String) (st st1 : CrawlState)
    (hg : l ∉ st.visited ∧ should_follow_link st.base_url l = true)
    (hq : recur l st = (none, st1)) :
    process_links recur (l :: ls) st = process_links recur ls st1 := by
  simp only [process_links]; rw [if_pos hg, hq]

/-- An admitted link whose recursion yields a node appends that node and the
remaining links are still processed, from the updated state. -/
theorem process_links_cons_some
    (recur : String → CrawlState → Option CrawlNode × CrawlState)
    (l : String) (ls : List String) (st : CrawlState) (c : CrawlNode)
    (st1 : CrawlState)
    (hg : l ∉ st.visited ∧ should_follow_link st.base_url l = true)
    (hq : recur l st = (some c, st1)) :
    process_links recur (l :: ls) st
      = (c :: (process_links recur ls st1).1, (process_links recur ls st1).2) := by
  simp only [process_links]; rw [if_pos hg, hq]

/-- At depth 0 the traversal returns the empty result and leaves the state
untouched, for every fetch oracle (nothing is fetched). -/
theorem traverse_links_zero (fetch : String → Except String Page) (mp : Nat)
    (url : String) (st : CrawlState) :
    traverse_links fetch mp 0 url st = (none, st) := by
  simp only [traverse_links]; exact ite_self _

/-- The page cap stops the traversal before anything happens. -/
theorem traverse_links_stop (fetch : String → Except String Page) (mp d : Nat)
    (url : String) (st : CrawlState) (h : st.visited.length ≥ mp) :
    traverse_links fetch mp (d + 1) url st = (none, st) := by
  simp only [traverse_links]; rw [if_pos h]

/-- A visited URL stops the traversal before anything happens. -/
theorem traverse_links_mem (fetch : String → Except String Page) (mp d : Nat)
    (url : String) (st : CrawlState)
    (hcap : ¬ st.visited.length ≥ mp) (h : url ∈ st.visited) :
    traverse_links fetch mp (d + 1) url st = (none, st) := by
  simp only [traverse_links]; rw [if_neg hcap, if_pos h]

/-- A fetch/parse failure yields the error node with no children; `visited`
has gained the URL and `base_url` is unchanged. -/
theorem traverse_links_err (fetch : String → Except String Page) (mp d : Nat)
    (url : String) (st : CrawlState) (e : String)
    (hcap : ¬ st.visited.length ≥ mp) (hvis : url ∉ st.visited)
    (hf : fetch url = .error e) :
    traverse_links fetch mp (d + 1) url st
      = (some (.mk url none (some e) []),
         { visited := url :: st.visited, base_url := st.base_url }) := by
  simp only [traverse_links]; rw [if_neg hcap, if_neg hvis, hf]

/-- A successful fetch yields a node whose children come from processing the
page's links at depth one less, starting from the state in which the URL is
visited and `base_url` has been set to the fetched URL. -/
theorem traverse_links_ok (fetch : String → Except String Page) (mp d : Nat)
    (url : String) (st : CrawlState) (page : Page)
    (hcap : ¬ st.visited.length ≥ mp) (hvis : url ∉ st.visited)
    (hf : fetch url = .ok page) :
    traverse_links fetch mp (d + 1) url st
      = (some (.mk url page.title none
          (process_links (fun l s => traverse_links fetch mp d l s) page.links
            { visited := url :: st.visited, base_url := url }).1),
         (process_links (fun l s => traverse_links fetch mp d l s) page.links
            { visited := url :: st.visited, base_url := url }).2) := by
  simp only [traverse_links]; rw [if_neg hcap, if_neg hvis, hf]

/-! ### Properties of the link filter -/

/-- If the filter admits a link, the link's netloc equals the netloc of the
`base_url` it was checked against. -/
theorem should_follow_link_netloc {b l : String}
    (h : should_follow_link b l = true) :
    (urlparse l).netloc = (urlparse b).netloc := by
  simp only [should_follow_link] at h
  split at h
  · exact absurd h (by simp)
  · split at h
    · exact absurd h (by simp)
    · split at h
      · exact absurd h (by simp)
      · rename_i hn
        exact not_ne_iff.mp hn

/-- The filter rejects every link whose netloc differs from the netloc of
the `base_url` it is checked against. -/
theorem should_follow_link_false_of_netloc {b l : String}
    (h : (urlparse l).netloc ≠ (urlparse b).netloc) :
    should_follow_link b l = false := by
  cases hf : should_follow_link b l
  · rfl
  · exact absurd (should_follow_link_netloc hf) h

/-- The filter rejects every URL whose lowercased text ends with one of the
denylisted extensions, whatever the `base_url`. -/
theorem should_follow_link_false_of_ext {base url : String}
    (h : skip_extensions.any (fun ext => endsWithS (lowerS url) ext) = true) :
    should_follow_link base url = false := by
  simp [should_follow_link, h]

/-! ### The visited set: one insertion per URL, one node per insertion -/

/-- Invariant of the link loop: the final `visited` is (a permutation of)
the URLs of the emitted children's trees prepended to the initial `visited`;
those URLs are pairwise distinct and none was visited initially.  The
hypothesis `hrec` is the same invariant for the recursive call. -/
theorem process_links_visited
    (recur : String → CrawlState → Option CrawlNode × CrawlState)
    (hrec : ∀ l s,
      ((recur l s).2.visited).Perm (urlsOf (recur l s).1 ++ s.visited)
      ∧ (urlsOf (recur l s).1).Nodup
      ∧ ∀ u ∈ urlsOf (recur l s).1, u ∉ s.visited) :
    ∀ (ls : List String) (st : CrawlState),
      ((process_links recur ls st).2.visited).Perm
        (treeUrlsList (process_links recur ls st).1 ++ st.visited)
      ∧ (treeUrlsList (process_links recur ls st).1).Nodup
      ∧ ∀ u ∈ treeUrlsList (process_links recur ls st).1, u ∉ st.visited := by
  intro ls
  induction ls with
  | nil =>
    intro st
    rw [process_links_nil]
    simp [treeUrlsList]
  | cons l ls ih =>
    intro st
    by_cases hg : l ∉ st.visited ∧ should_follow_link st.base_url l = true
    · rcases hq : recur l st with ⟨c?, st1⟩
      have hr := hrec l st
      rw [hq] at hr
      rcases c? with _ | c
      · rw [process_links_cons_none recur l ls st st1 hg hq]
        simp only [urlsOf, List.nil_append] at hr
        have ih1 := ih st1
        refine ⟨ih1.1.trans (List.Perm.append_left _ hr.1), ih1.2.1, ?_⟩
        intro u hu hmem
        exact ih1.2.2 u hu (hr.1.symm.subset hmem)
      · rw [process_links_cons_some recur l ls st c st1 hg hq]
        simp only [urlsOf] at hr
        have ih1 := ih st1
        rcases hP : process_links recur ls st1 with ⟨cs, st2⟩
        rw [hP] at ih1
        dsimp only at ih1 ⊢
        simp only [treeUrlsList]
        refine ⟨?_, ?_, ?_⟩
        · refine (ih1.1.trans (List.Perm.append_left _ hr.1)).trans ?_
          rw [← List.append_assoc]
          exact List.Perm.append_right _ List.perm_append_comm
        · rw [List.nodup_append]
          exact ⟨hr.2.1, ih1.2.1, fun u hu hmem =>
            ih1.2.2 u hmem (hr.1.symm.subset (List.mem_append.mpr (Or.inl hu)))⟩
        · intro u hu hmem
          rcases List.mem_append.mp hu with hu | hu
          · exact hr.2.2 u hu hmem
          · exact ih1.2.2 u hu (hr.1.symm.subset (List.mem_append.mpr (Or.inr hmem)))
    · rw [process_links_cons_skip recur l ls st hg]
      exact ih st

/-- Invariant of the traversal: the final `visited` is (a permutation of)
the URLs of the returned tree's nodes prepended to the initial `visited`;
the tree's URLs are pairwise distinct and none was visited initially.  Each
URL is inserted at most once, and the node built at its insertion is the
only node carrying it. -/
theorem traverse_links_visited (fetch : String → Except String Page) (mp : Nat) :
    ∀ (depth : Nat) (url : String) (st : CrawlState),
      ((traverse_links fetch mp depth url st).2.visited).Perm
        (urlsOf (traverse_links fetch mp depth url st).1 ++ st.visited)
      ∧ (urlsOf (traverse_links fetch mp depth url st).1).Nodup
      ∧ ∀ u ∈ urlsOf (traverse_links fetch mp depth url st).1, u ∉ st.visited := by
  intro depth
  induction depth with
  | zero =>
    intro url st
    rw [traverse_links_zero]
    simp [urlsOf]
  | succ d ih =>
    intro url st
    by_cases hcap : st.visited.length ≥ mp
    · rw [traverse_links_stop fetch mp d url st hcap]
      simp [urlsOf]
    · by_cases hvis : url ∈ st.visited
      · rw [traverse_links_mem fetch mp d url st hcap hvis]
        simp [urlsOf]
      · rcases hf : fetch url with e | page
        · rw [traverse_links_err fetch mp d url st e hcap hvis hf]
          simp only [urlsOf, treeUrls, treeUrlsList]
          exact ⟨List.Perm.refl _, by simp, by simpa using hvis⟩
        · rw [traverse_links_ok fetch mp d url st page hcap hvis hf]
          have hp := process_links_visited
            (fun l s => traverse_links fetch mp d l s)
            (fun l s => ih l s) page.links
            { visited := url :: st.visited, base_url := url }
          rcases hP : process_links (fun l s => traverse_links fetch mp d l s)
              page.links { visited := url :: st.visited, base_url := url }
            with ⟨cs, st3⟩
          rw [hP] at hp
          dsimp only at hp ⊢
          simp only [urlsOf, treeUrls]
          have hnotin : url ∉ treeUrlsList cs := fun hmem =>
            hp.2.2 url hmem (List.mem_cons_self url st.visited)
          refine ⟨?_, ?_, ?_⟩
          · rw [List.cons_append]
            exact hp.1.trans List.perm_middle
          · exact List.nodup_cons.mpr ⟨hnotin, hp.2.1⟩
          · intro u hu hmem
            rcases List.mem_cons.mp hu with rfl | hu
            · exact hvis hmem
            · exact hp.2.2 u hu (List.mem_cons_of_mem url hmem)

/-! ### The page cap -/

/-- The link loop never pushes `visited` beyond `max st.visited.length mp`,
given that the recursive call does not. -/
theorem process_links_cap
    (recur : String → CrawlState → Option CrawlNode × CrawlState) (mp : Nat)
    (hrec : ∀ l s, (recur l s).2.visited.length ≤ max s.visited.length mp) :
    ∀ (ls : List String) (st : CrawlState),
      (process_links recur ls st).2.visited.length ≤ max st.visited.length mp := by
  intro ls
  induction ls with
  | nil => intro st; rw [process_links_nil]; exact le_max_left _ _
  | cons l ls ih =>
    intro st
    by_cases hg : l ∉ st.visited ∧ should_follow_link st.base_url l = true
    · rcases hq : recur l st with ⟨c?, st1⟩
      have h1 := hrec l st
      rw [hq] at h1
      have h2 := ih st1
      rcases c? with _ | c
      · rw [process_links_cons_none recur l ls st st1 hg hq]
        dsimp only at h1
        omega
      · rw [process_links_cons_some recur l ls st c st1 hg hq]
        dsimp only at h1 ⊢
        omega
    · rw [process_links_cons_skip recur l ls st hg]
      exact ih st

/-- The traversal never pushes `visited` beyond `max st.visited.length mp`:
a URL is inserted only after the admission check `len(visited) >= max_pages`
has failed. -/
theorem traverse_links_cap (fetch : String → Except String Page) (mp : Nat) :
    ∀ (depth : Nat) (url : String) (st : CrawlState),
      (traverse_links fetch mp depth url st).2.visited.length
        ≤ max st.visited.length mp := by
  intro depth
  induction depth with
  | zero => intro url st; rw [traverse_links_zero]; exact le_max_left _ _
  | succ d ih =>
    intro url st
    by_cases hcap : st.visited.length ≥ mp
    · rw [traverse_links_stop fetch mp d url st hcap]; exact le_max_left _ _
    · by_cases hvis : url ∈ st.visited
      · rw [traverse_links_mem fetch mp d url st hcap hvis]; exact le_max_left _ _
      · rcases hf : fetch url with e | page
        · rw [traverse_links_err fetch mp d url st e hcap hvis hf]
          dsimp only [CrawlState.visited]
          simp only [List.length_cons]
          omega
        · rw [traverse_links_ok fetch mp d url st page hcap hvis hf]
          have hp := process_links_cap (fun l s => traverse_links fetch mp d l s) mp
            (fun l s => ih l s) page.links
            { visited := url :: st.visited, base_url := url }
          dsimp only at hp ⊢
          simp only [List.length_cons] at hp
          omega

/-! ### The same-origin invariant

Every page the crawl actually parses shares the traversal root's netloc: the
filter only admits links whose netloc equals the netloc of the current
`base_url`, and `base_url` is only ever set to URLs that passed that very
check, so its netloc never leaves the root's. -/

/-- Invariant of the link loop: when the current `base_url` has netloc `h`,
every node produced by the loop has a URL of netloc `h`, and the final
`base_url` still has netloc `h`. -/
theorem process_links_host
    (recur : String → CrawlState → Option CrawlNode × CrawlState) (h : String)
    (hrec : ∀ l s,
      (∀ n ∈ nodesOf (recur l s).1, (urlparse n.url).netloc = (urlparse l).netloc)
      ∧ ((recur l s).2.base_url = s.base_url
          ∨ (urlparse (recur l s).2.base_url).netloc = (urlparse l).netloc)) :
    ∀ (ls : List String) (st : CrawlState),
      (urlparse st.base_url).netloc = h →
      (∀ n ∈ allNodesList (process_links recur ls st).1,
          (urlparse n.url).netloc = h)
      ∧ (urlparse (process_links recur ls st).2.base_url).netloc = h := by
  intro ls
  induction ls with
  | nil =>
    intro st hst
    rw [process_links_nil]
    exact ⟨by simp [allNodesList], hst⟩
  | cons l ls ih =>
    intro st hst
    by_cases hg : l ∉ st.visited ∧ should_follow_link st.base_url l = true
    · have hnet : (urlparse l).netloc = h := by
        rw [should_follow_link_netloc hg.2, hst]
      rcases hq : recur l st with ⟨c?, st1⟩
      have hr := hrec l st
      rw [hq] at hr
      dsimp only at hr
      have hst1 : (urlparse st1.base_url).netloc = h := by
        rcases hr.2 with h2 | h2
        · rw [h2]; exact hst
        · rw [h2]; exact hnet
      rcases c? with _ | c
      · rw [process_links_cons_none recur l ls st st1 hg hq]
        exact ih st1 hst1
      · rw [process_links_cons_some recur l ls st c st1 hg hq]
        have ih1 := ih st1 hst1
        dsimp only
        refine ⟨?_, ih1.2⟩
        intro n hn
        simp only [allNodesList] at hn
        rcases List.mem_append.mp hn with hn | hn
        · rw [hr.1 n (by simpa [nodesOf] using hn), hnet]
        · exact ih1.1 n hn
    · rw [process_links_cons_skip recur l ls st hg]
      exact ih st hst

/-- Invariant of the traversal: every node of the returned tree has a URL
whose netloc equals the netloc of the URL the call was made on, and the
final `base_url` is either untouched or has that same netloc. -/
theorem traverse_links_host (fetch : String → Except String Page) (mp : Nat) :
    ∀ (depth : Nat) (url : String) (st : CrawlState),
      (∀ n ∈ nodesOf (traverse_links fetch mp depth url st).1,
          (urlparse n.url).netloc = (urlparse url).netloc)
      ∧ ((traverse_links fetch mp depth url st).2.base_url = st.base_url
          ∨ (urlparse (traverse_links fetch mp depth url st).2.base_url).netloc
              = (urlparse url).netloc) := by
  intro depth
  induction depth with
  | zero =>
    intro url st
    rw [traverse_links_zero]
    exact ⟨by simp [nodesOf], Or.inl rfl⟩
  | succ d ih =>
    intro url st
    by_cases hcap : st.visited.length ≥ mp
    · rw [traverse_links_stop fetch mp d url st hcap]
      exact ⟨by simp [nodesOf], Or.inl rfl⟩
    · by_cases hvis : url ∈ st.visited
      · rw [traverse_links_mem fetch mp d url st hcap hvis]
        exact ⟨by simp [nodesOf], Or.inl rfl⟩
      · rcases hf : fetch url with e | page
        · rw [traverse_links_err fetch mp d url st e hcap hvis hf]
          refine ⟨?_, Or.inl rfl⟩
          intro n hn
          simp only [nodesOf, allNodes, allNodesList, List.append_nil] at hn
          rcases List.mem_singleton.mp hn with rfl
          rfl
        · rw [traverse_links_ok fetch mp d url st page hcap hvis hf]
          have hp := process_links_host (fun l s => traverse_links fetch mp d l s)
            (urlparse url).netloc (fun l s => ih l s) page.links
            { visited := url :: st.visited, base_url := url } rfl
          rcases hP : process_links (fun l s => traverse_links fetch mp d l s)
              page.links { visited := url :: st.visited, base_url := url }
            with ⟨cs, st3⟩
          rw [hP] at hp
          dsimp only at hp ⊢
          refine ⟨?_, Or.inr hp.2⟩
          intro n hn
          simp only [nodesOf, allNodes] at hn
          rcases List.mem_cons.mp hn with rfl | hn
          · rfl
          · exact hp.1 n hn

/-! ### Error nodes have no children -/

/-- Children emitted by the link loop contain no error node with children,
given that the recursive call emits none. -/
theorem process_links_error_childless
    (recur : String → CrawlState → Option CrawlNode × CrawlState)
    (hrec : ∀ l s n, n ∈ nodesOf (recur l s).1 →
      (n.error).isSome = true → n.links = []) :
    ∀ (ls : List String) (st : CrawlState) (n : CrawlNode),
      n ∈ allNodesList (process_links recur ls st).1 →
      (n.error).isSome = true → n.links = [] := by
  intro ls
  induction ls with
  | nil =>
    intro st n hn
    rw [process_links_nil] at hn
    simp [allNodesList] at hn
  | cons l ls ih =>
    intro st n hn he
    by_cases hg : l ∉ st.visited ∧ should_follow_link st.base_url l = true
    · rcases hq : recur l st with ⟨c?, st1⟩
      rcases c? with _ | c
      · rw [process_links_cons_none recur l ls st st1 hg hq] at hn
        exact ih st1 n hn he
      · rw [process_links_cons_some recur l ls st c st1 hg hq] at hn
        dsimp only at hn
        simp only [allNodesList] at hn
        rcases List.mem_append.mp hn with hn | hn
        · exact hrec l st n (by rw [hq]; simpa [nodesOf] using hn) he
        · exact ih st1 n hn he
    · rw [process_links_cons_skip recur l ls st hg] at hn
      exact ih st n hn he

/-- Every node of a returned crawl tree that carries an error message has an
empty children list. -/
theorem traverse_links_error_childless
    (fetch : String → Except String Page) (mp : Nat) :
    ∀ (depth : Nat) (url : String) (st : CrawlState) (n : CrawlNode),
      n ∈ nodesOf (traverse_links fetch mp depth url st).1 →
      (n.error).isSome = true → n.links = [] := by
  intro depth
  induction depth with
  | zero =>
    intro url st n hn
    rw [traverse_links_zero] at hn
    simp [nodesOf] at hn
  | succ d ih =>
    intro url st n hn he
    by_cases hcap : st.visited.length ≥ mp
    · rw [traverse_links_stop fetch mp d url st hcap] at hn
      simp [nodesOf] at hn
    · by_cases hvis : url ∈ st.visited
      · rw [traverse_links_mem fetch mp d url st hcap hvis] at hn
        simp [nodesOf] at hn
      · rcases hf : fetch url with e | page
        · rw [traverse_links_err fetch mp d url st e hcap hvis hf] at hn
          simp only [nodesOf, allNodes, allNodesList, List.append_nil] at hn
          rcases List.mem_singleton.mp hn with rfl
          rfl
        · rw [traverse_links_ok fetch mp d url st page hcap hvis hf] at hn
          simp only [nodesOf, allNodes] at hn
          rcases List.mem_cons.mp hn with rfl | hn
          · simp [CrawlNode.error] at he
          · exact process_links_error_childless
              (fun l s => traverse_links fetch mp d l s)
              (fun l s => ih l s) page.links _ n hn he

/-- The link loop collapses when the recursion always yields the empty
result (as at remaining depth 0): no children, state untouched. -/
theorem process_links_of_none
    (recur : String → CrawlState → Option CrawlNode × CrawlState)
    (h : ∀ l s, recur l s = (none, s)) :
    ∀ (ls : List String) (st : CrawlState),
      process_links recur ls st = ([], st) := by
  intro ls
  induction ls with
  | nil => intro st; exact process_links_nil recur st
  | cons l ls ih =>
    intro st
    by_cases hg : l ∉ st.visited ∧ should_follow_link st.base_url l = true
    · rw [process_links_cons_none recur l ls st st hg (h l st)]
      exact ih st
    · rw [process_links_cons_skip recur l ls st hg]
      exact ih st

/-! ### Claim theorems for the crawl engine -/

/-- C1: for every link discovered at every recursion level of a crawl, the
admissibility check returns false whenever the link's host differs from the
host of the traversal root.  First conjunct: `_should_follow_link` rejects
any link whose netloc differs from the netloc of the `base_url` it is
checked against.  Second conjunct: every node of the returned crawl tree —
i.e. every page whose links ever get filtered, each against the then-current
`base_url` — has the traversal root's netloc, so the comparison is always,
in effect, against the origin of the start URL. -/
theorem same_origin_law (fetch : String → Except String Page) (mp : Nat) :
    (∀ b l : String, (urlparse l).netloc ≠ (urlparse b).netloc →
        should_follow_link b l = false)
    ∧ ∀ (depth : Nat) (url : String) (st : CrawlState) (n : CrawlNode),
        n ∈ nodesOf (traverse_links fetch mp depth url st).1 →
        (urlparse n.url).netloc = (urlparse url).netloc :=
  ⟨fun _ _ h => should_follow_link_false_of_netloc h,
   fun depth url st n hn => (traverse_links_host fetch mp depth url st).1 n hn⟩

/-- A one-page oracle for the C1 witness. -/
def wfetch1 : String → Except String Page := fun _ =>
  .ok { title := some "T", links := [] }

/-- Witness for C1: a cross-host link is rejected, and the root node of a
concrete crawl has the root's netloc. -/
theorem same_origin_law_witness :
    should_follow_link "http://a.com/" "http://b.com/x" = false
    ∧ (urlparse (CrawlNode.mk "http://a.com/" (some "T") none []).url).netloc
        = (urlparse "http://a.com/").netloc := by
  constructor
  · exact (same_origin_law wfetch1 10).1 "http://a.com/" "http://b.com/x" (by decide)
  · refine (same_origin_law wfetch1 10).2 1 "http://a.com/" ⟨[], ""⟩
      (CrawlNode.mk "http://a.com/" (some "T") none []) ?_
    have hkey : nodesOf (traverse_links wfetch1 10 1 "http://a.com/" ⟨[], ""⟩).1
        = [CrawlNode.mk "http://a.com/" (some "T") none []] := rfl
    rw [hkey]
    exact List.mem_singleton_self _

/-- C5: within one traversal invocation each URL is inserted into `visited`
at most once (the final `visited` list, built by one `cons` per insertion,
has no duplicates), the returned tree never carries the same URL at two
positions, and the visited URLs are exactly the tree's node URLs (first
encounter builds the only node; later encounters build none). -/
theorem visited_once_tree_nodup (fetch : String → Except String Page)
    (mp depth : Nat) (url b : String) :
    ((traverse_links fetch mp depth url ⟨[], b⟩).2.visited).Nodup
    ∧ (urlsOf (traverse_links fetch mp depth url ⟨[], b⟩).1).Nodup
    ∧ ((traverse_links fetch mp depth url ⟨[], b⟩).2.visited).Perm
        (urlsOf (traverse_links fetch mp depth url ⟨[], b⟩).1) := by
  have h := traverse_links_visited fetch mp depth url ⟨[], b⟩
  have hperm : ((traverse_links fetch mp depth url ⟨[], b⟩).2.visited).Perm
      (urlsOf (traverse_links fetch mp depth url ⟨[], b⟩).1) := by
    have h1 := h.1
    simpa using h1
  exact ⟨hperm.symm.symm.trans (List.Perm.refl _) |>.nodup_iff.mpr h.2.1, h.2.1, hperm⟩

/-- C6: upon completion of any traversal started with an empty visited set,
`|visited| ≤ max_pages`. -/
theorem page_cap_law (fetch : String → Except String Page)
    (mp depth : Nat) (url b : String) :
    ((traverse_links fetch mp depth url ⟨[], b⟩).2.visited).length ≤ mp := by
  have h := traverse_links_cap fetch mp depth url ⟨[], b⟩
  simpa using h

/-- C7: with depth 0 the traversal returns the empty result and an untouched
state for every fetch oracle (so nothing is fetched); with depth 1 it
returns a node for the start URL with an empty children list, whatever
links the fetched page contains. -/
theorem depth_law (fetch : String → Except String Page) (mp : Nat)
    (url b : String) (hmp : 0 < mp) :
    (∀ st : CrawlState, traverse_links fetch mp 0 url st = (none, st))
    ∧ Option.map CrawlNode.url (traverse_links fetch mp 1 url ⟨[], b⟩).1 = some url
    ∧ Option.map CrawlNode.links (traverse_links fetch mp 1 url ⟨[], b⟩).1
        = some [] := by
  refine ⟨fun st => traverse_links_zero fetch mp url st, ?_⟩
  have hcap : ¬ (CrawlState.mk [] b).visited.length ≥ mp := by
    simp only [CrawlState.visited, List.length_nil]
    omega
  have hvis : url ∉ (CrawlState.mk [] b).visited := by
    simp [CrawlState.visited]
  rcases hf : fetch url with e | page
  · rw [show (1 : Nat) = 0 + 1 from rfl,
       traverse_links_err fetch mp 0 url ⟨[], b⟩ e hcap hvis hf]
    exact ⟨rfl, rfl⟩
  · rw [show (1 : Nat) = 0 + 1 from rfl,
       traverse_links_ok fetch mp 0 url ⟨[], b⟩ page hcap hvis hf]
    rw [process_links_of_none (fun l s => traverse_links fetch mp 0 l s)
      (fun l s => traverse_links_zero fetch mp l s)]
    exact ⟨rfl, rfl⟩

/-- A one-page oracle with an outbound admissible link, for the C7 witness. -/
def wfetch7 : String → Except String Page := fun _ =>
  .ok { title := some "T", links := ["http://a.com/x"] }

/-- Witness for C7: at a concrete input, depth 0 yields the empty result and
depth 1 yields a childless node for the start URL even though the page links
to a same-host page. -/
theorem depth_law_witness :
    traverse_links wfetch7 5 0 "http://a.com/" ⟨[], ""⟩ = (none, ⟨[], ""⟩)
    ∧ Option.map CrawlNode.url
        (traverse_links wfetch7 5 1 "http://a.com/" ⟨[], ""⟩).1 = some "http://a.com/"
    ∧ Option.map CrawlNode.links
        (traverse_links wfetch7 5 1 "http://a.com/" ⟨[], ""⟩).1 = some [] :=
  ⟨(depth_law wfetch7 5 "http://a.com/" "" (by decide)).1 ⟨[], ""⟩,
   (depth_law wfetch7 5 "http://a.com/" "" (by decide)).2⟩

/-- C8: a fetch/parse exception produces, for that URL, a node carrying the
error message with an empty children list (first and second conjuncts: every
error node anywhere in a returned tree is childless, and the failing call
returns exactly that node without recursing, having only marked the URL
visited), and the enclosing link loop appends the child and keeps processing
the remaining sibling links from the updated state (third conjunct), so the
failure never aborts the traversal. -/
theorem error_isolation (fetch : String → Except String Page) (mp : Nat) :
    (∀ (depth : Nat) (url : String) (st : CrawlState) (n : CrawlNode),
        n ∈ nodesOf (traverse_links fetch mp depth url st).1 →
        (n.error).isSome = true → n.links = [])
    ∧ (∀ (d : Nat) (url : String) (st : CrawlState) (e : String),
        ¬ st.visited.length ≥ mp → url ∉ st.visited → fetch url = .error e →
        traverse_links fetch mp (d + 1) url st
          = (some (.mk url none (some e) []),
             { visited := url :: st.visited, base_url := st.base_url }))
    ∧ ∀ (recur : String → CrawlState → Option CrawlNode × CrawlState)
        (l : String) (ls : List String) (st : CrawlState) (c : CrawlNode)
        (st1 : CrawlState),
        l ∉ st.visited → should_follow_link st.base_url l = true →
        recur l st = (some c, st1) →
        process_links recur (l :: ls) st
          = (c :: (process_links recur ls st1).1, (process_links recur ls st1).2) :=
  ⟨fun depth url st n hn he =>
      traverse_links_error_childless fetch mp depth url st n hn he,
   fun d url st e h1 h2 h3 => traverse_links_err fetch mp d url st e h1 h2 h3,
   fun recur l ls st c st1 h1 h2 h3 =>
      process_links_cons_some recur l ls st c st1 ⟨h1, h2⟩ h3⟩

/-- An oracle for the C8 witness: the root page links to a URL whose fetch
fails and to a sibling that succeeds. -/
def errFetch8 : String → Except String Page := fun u =>
  if u = "http://a.com/" then
    .ok { title := some "Root", links := ["http://a.com/bad", "http://a.com/ok"] }
  else if u = "http://a.com/ok" then .ok { title := some "Ok", links := [] }
  else .error "boom"

/-- Witness for C8 at concrete inputs: the error node found inside a
concrete crawl tree is childless, and a failing fetch returns exactly the
error node. -/
theorem error_isolation_witness :
    (CrawlNode.mk "http://a.com/bad" none (some "boom") []).links = []
    ∧ traverse_links errFetch8 10 (0 + 1) "http://a.com/bad" ⟨[], "b"⟩
        = (some (.mk "http://a.com/bad" none (some "boom") []),
           { visited := ["http://a.com/bad"], base_url := "b" }) := by
  constructor
  · refine (error_isolation errFetch8 10).1 2 "http://a.com/" ⟨[], ""⟩
      (CrawlNode.mk "http://a.com/bad" none (some "boom") []) ?_ rfl
    have hkey : nodesOf (traverse_links errFetch8 10 2 "http://a.com/" ⟨[], ""⟩).1
        = [CrawlNode.mk "http://a.com/" (some "Root") none
             [CrawlNode.mk "http://a.com/bad" none (some "boom") [],
              CrawlNode.mk "http://a.com/ok" (some "Ok") none []],
           CrawlNode.mk "http://a.com/bad" none (some "boom") [],
           CrawlNode.mk "http://a.com/ok" (some "Ok") none []] := rfl
    rw [hkey]
    exact List.mem_cons_of_mem _ (List.mem_cons_self _ _)
  · exact (error_isolation errFetch8 10).2.1 0 "http://a.com/bad" ⟨[], "b"⟩ "boom"
      (by decide) (by decide) rfl

/-- C10 counterexample: a URL whose *path* ends in a denylisted extension
but which carries a query string is admitted by `_should_follow_link` (the
source tests `url.lower().endswith(ext)` on the whole URL text, not on the
parsed path), contradicting the claim that every such URL is rejected. -/
theorem skip_extension_query_counterexample :
    should_follow_link "http://example.com/" "http://example.com/doc.pdf?dl=1" = true
    ∧ endsWithS (urlparse "http://example.com/doc.pdf?dl=1").path ".pdf" = true := by
  decide

/-- C10 (amended): `_should_follow_link` returns false for every URL whose
lowercased full text ends in one of `.pdf`, `.jpg`, `.png`, `.gif`, `.zip`;
when a query string or fragment follows the path, the extension is not at
the end of the URL text and the denylist check does not fire. -/
theorem skip_extension_amended (base url : String)
    (h : skip_extensions.any (fun ext => endsWithS (lowerS url) ext) = true) :
    should_follow_link base url = false :=
  should_follow_link_false_of_ext h

/-- Witness for the amended C10 at a concrete input. -/
theorem skip_extension_amended_witness :
    should_follow_link "http://a.com/" "http://a.com/img.png" = false :=
  skip_extension_amended "http://a.com/" "http://a.com/img.png" (by decide)

/-! ### The document tree

Model of the navigable tree the markup-parsing collaborator (BeautifulSoup)
hands to the extraction pipeline: element nodes with a tag, attributes and
children, plus text nodes.  The whole document is an element node with tag
`[document]` (BeautifulSoup's name for the soup object) whose children are
the top-level parsed nodes. -/

/-- One node of the parsed markup tree. -/
inductive HtmlNode where
  | elem (tag : String) (attrs : List (String × String)) (children : List HtmlNode)
  | text (s : String)

/-- The node's tag name (text nodes have none). -/
def tagOf : HtmlNode → String
  | .elem t _ _ => t
  | .text _ => ""

/-- Attribute lookup (model of `element.get(name)`). -/
def attr (n : HtmlNode) (name : String) : Option String :=
  match n with
  | .elem _ attrs _ => (attrs.find? (fun kv => kv.1 == name)).map (fun kv => kv.2)
  | .text _ => none

/-- The multi-valued `class` attribute: whitespace-split list (model of
BeautifulSoup's `element.get('class', [])`). -/
def classes (n : HtmlNode) : List String :=
  match attr n "class" with
  | some c => (splitWs c.toList).map String.mk
  | none => []

mutual

/-- Concatenated stripped text of a node (model of
`get_text(strip=True)`: every descendant string stripped, concatenated in
document order). -/
def getText : HtmlNode → String
  | .text s => trimS s
  | .elem _ _ cs => getTextList cs

/-- Concatenated stripped text of a forest. -/
def getTextList : List HtmlNode → String
  | [] => ""
  | n :: ns => getText n ++ getTextList ns

end

mutual

/-- The element node itself followed by its element descendants, pre-order
(text nodes are skipped: tag queries never match them). -/
def descNode : HtmlNode → List HtmlNode
  | .elem t a cs => .elem t a cs :: descList cs
  | .text _ => []

/-- Element nodes of a forest, pre-order. -/
def descList : List HtmlNode → List HtmlNode
  | [] => []
  | n :: ns => descNode n ++ descList ns

end

/-- The element descendants of a node, pre-order, excluding the node itself
(the search scope of `element.find_all` / `element.find`). -/
def descendants : HtmlNode → List HtmlNode
  | .elem _ _ cs => descList cs
  | .text _ => []

mutual

/-- The node paired with its ancestor chain (nearest first), followed by its
descendants with theirs. -/
def collectAnc (anc : List HtmlNode) : HtmlNode → List (List HtmlNode × HtmlNode)
  | .elem t a cs => (anc, .elem t a cs) :: collectAncList (.elem t a cs :: anc) cs
  | .text _ => []

/-- Forest version of `collectAnc`. -/
def collectAncList (anc : List HtmlNode) : List HtmlNode → List (List HtmlNode × HtmlNode)
  | [] => []
  | n :: ns => collectAnc anc n ++ collectAncList anc ns

end

/-- The element descendants of a node (excluding itself), each paired with
its full ancestor chain, given the node's own chain `anc`.  Used to model
`find_all` where the enclosing-ancestor structure (`find_parent`) is also
needed. -/
def descWithAnc (anc : List HtmlNode) : HtmlNode → List (List HtmlNode × HtmlNode)
  | .elem t a cs => collectAncList (.elem t a cs :: anc) cs
  | .text _ => []

/-! ### Element classifier (`identify_interactive_elements`,
`analyze_element`, `infer_purpose`, `get_element_context`,
source lines 126-230) -/

/-- The fixed selector set (source lines 130-134). -/
def selectors : List String :=
  ["button", "input", "a", "select", "[role=\"button\"]", "[role=\"link\"]",
   "[role=\"menuitem\"]", "form"]

/-- Parse a CSS attribute selector of the shape used by the source,
`[name="value"]`. -/
def parseAttrSelector (sel : String) : Option (String × String) :=
  let cs := sel.toList
  if cs.headD ' ' = '[' ∧ cs.getLast? = some ']' then
    let body := (cs.drop 1).dropLast
    match splitAtChar '=' body with
    | (namePart, some rest) =>
      if rest.headD ' ' = '"' ∧ rest.getLast? = some '"' then
        some (String.mk namePart, String.mk ((rest.drop 1).dropLast))
      else none
    | (_, none) => none
  else none

/-- Model of CSS matching for the two selector forms the source uses: a bare
tag name, and an exact attribute selector. -/
def matchesSelector (sel : String) (n : HtmlNode) : Bool :=
  match parseAttrSelector sel with
  | some av => attr n av.1 == some av.2
  | none => tagOf n == sel

/-- All element descendants of the document, indexed by pre-order position
(the index models Python object identity: the parser's `actionable_elements`
dict is keyed by tree-node object). -/
def pageElements (soup : HtmlNode) : List (Nat × List HtmlNode × HtmlNode) :=
  (descWithAnc [] soup).enum.map (fun x => (x.1, x.2.1, x.2.2))

/-- Document-order matches of one selector (model of `soup.select`). -/
def selectAll (soup : HtmlNode) (sel : String) : List (Nat × List HtmlNode × HtmlNode) :=
  (pageElements soup).filter (fun x => matchesSelector sel x.2.2)

/-- Keep the first occurrence of every position (model of repeated
`dict[element] = semantics` assignments: the first insertion fixes the
position, later ones rewrite the same value). -/
def dedupByIdx : List (Nat × List HtmlNode × HtmlNode) → List (Nat × List HtmlNode × HtmlNode)
  | [] => []
  | x :: xs => x :: (dedupByIdx xs).filter (fun y => y.1 ≠ x.1)

/-- The elements gathered by `identify_interactive_elements` (source lines
126-142): the selectors in order, each match analyzed once. -/
def interactiveElements (soup : HtmlNode) : List (Nat × List HtmlNode × HtmlNode) :=
  dedupByIdx ((selectors.map (fun sel => selectAll soup sel)).flatten)

/-- Accessibility capture of `analyze_element` (source lines 150-155). -/
structure AriaLabels where
  label : Option String
  description : Option String
  role : Option String
  label_text : Option String
deriving DecidableEq, Repr

/-- The positional context of `get_element_context` (source lines 210-230). -/
structure ElementContext where
  section_heading : Option String
  form_name : Option String
  in_navigation : Bool
  in_list : Bool
  url : Option String
deriving DecidableEq, Repr

/-- `ElementSemantics` (source lines 23-29). -/
structure ElementSemantics where
  element_type : String
  purpose : String
  context : ElementContext
  aria_labels : AriaLabels
  is_actionable : Bool := true
deriving DecidableEq, Repr

/-- The ordered purpose table of `infer_purpose` (source lines 188-199),
each regex an alternation of literal keywords. -/
def action_patterns : List (String × List String) :=
  [("submit", ["submit", "send", "save", "confirm", "ok", "apply"]),
   ("search", ["search", "find", "lookup"]),
   ("navigate", ["menu", "nav", "go to", "link"]),
   ("delete", ["delete", "remove", "clear"]),
   ("edit", ["edit", "modify", "change", "update"]),
   ("form", ["form", "input", "enter"]),
   ("login", ["login", "sign in", "signin"]),
   ("register", ["register", "sign up", "signup"]),
   ("download", ["download", "export", "get"]),
   ("upload", ["upload", "import", "attach"])]

/-- The signal list of `infer_purpose` (source lines 171-186): visible text,
aria-label, title, placeholder, name, id, then the space-joined class list;
absent and empty signals are dropped. -/
def purposeSignals (n : HtmlNode) : List String :=
  let signals : List (Option String) :=
    [some (getText n), attr n "aria-label", attr n "title",
     attr n "placeholder", attr n "name", attr n "id"]
  let signals := signals ++
    (if classes n ≠ [] then [some (" ".intercalate (classes n))] else [])
  (signals.filterMap id).filter (fun s => s ≠ "")

/-- First action whose pattern matches the signal (the inner loop of
`infer_purpose`, source lines 201-205). -/
def firstActionFor (s : String) : Option String :=
  (action_patterns.find? (fun ap => reSearchI ap.2 s)).map (fun ap => ap.1)

/-- Embedding of `infer_purpose` (source lines 168-208): first signal/rule
pair that matches wins, else "unknown". -/
def infer_purpose (n : HtmlNode) : String :=
  ((purposeSignals n).findSome? firstActionFor).getD "unknown"

/-- Heading tag names. -/
def headingTags : List String := ["h1", "h2", "h3", "h4", "h5", "h6"]

/-- Text of the first heading among a node's descendants (model of
`parent.find(['h1', ..., 'h6'])` + `get_text(strip=True)`). -/
def findHeadingText (n : HtmlNode) : Option String :=
  ((descendants n).find? (fun d => decide (tagOf d ∈ headingTags))).map getText

/-- Embedding of `get_element_context` (source lines 210-230): nearest
ancestor whose subtree holds a heading, enclosing form name, navigation/list
membership, resolved URL for hyperlinks. -/
def get_element_context (base_url : String) (anc : List HtmlNode) (n : HtmlNode) :
    ElementContext :=
  { section_heading := anc.findSome? findHeadingText
    form_name := (anc.find? (fun p => tagOf p == "form")).bind (fun f => attr f "name")
    in_navigation := anc.any (fun p => tagOf p == "nav")
    in_list := anc.any (fun p => tagOf p == "ul" || tagOf p == "ol")
    url := if tagOf n == "a" then some (urljoin base_url ((attr n "href").getD ""))
           else none }

/-- Embedding of `analyze_element` (source lines 144-166). -/
def analyze_element (base_url : String) (anc : List HtmlNode) (n : HtmlNode) :
    ElementSemantics :=
  { element_type := if tagOf n ≠ "" then tagOf n else (attr n "role").getD "unknown"
    purpose := infer_purpose n
    context := get_element_context base_url anc n
    aria_labels :=
      { label := attr n "aria-label"
        description := attr n "aria-description"
        role := attr n "role"
        label_text := if tagOf n == "input" then attr n "label" else none }
    is_actionable := true }

/-- The semantics the page contributes to `self.actionable_elements`
(source lines 136-142): every selector match, analyzed, kept when
actionable (which is always). -/
def newActionable (base_url : String) (soup : HtmlNode) : List ElementSemantics :=
  ((interactiveElements soup).map (fun x => analyze_element base_url x.2.1 x.2.2)).filter
    (fun s => s.is_actionable)

/-! ### Structure builder (`build_semantic_hierarchy` and helpers,
source lines 232-397)

`parse_main_content` looks up `soup.find('main') or soup.find('body')` and
hands the result to the extractors; when neither exists the handed value is
Python's `None`, and `container.find_all(...)` raises `AttributeError`.
The extractors therefore take an `Option` container and return `Except`,
with the `none` case producing the error the exception carries. -/

/-- One heading record of `extract_heading_hierarchy` (source lines 252-266). -/
structure HeadingInfo where
  text : String
  level : Nat
  id : Option String
deriving DecidableEq, Repr

/-- `int(heading.name[1])`: the digit after the `h`. -/
def headingLevel (tag : String) : Nat :=
  ((tag.toList.drop 1).headD '0').toNat - '0'.toNat

/-- The error message of the `AttributeError` raised when the container is
`None`. -/
def noneFindAllMsg : String :=
  "AttributeError: NoneType object has no attribute find_all"

/-- Embedding of `extract_heading_hierarchy` (source lines 252-266); a
`None` container raises. -/
def extract_heading_hierarchy : Option HtmlNode → Except String (List HeadingInfo)
  | none => .error noneFindAllMsg
  | some c => .ok (((descendants c).filter (fun d => decide (tagOf d ∈ headingTags))).map
      (fun h => { text := getText h, level := headingLevel (tagOf h), id := attr h "id" }))

/-- One input record of `parse_forms` (source lines 360-368). -/
structure FormInput where
  type : String
  name : Option String
  id : Option String
  required : Bool
  placeholder : Option String
  label : Option String
deriving DecidableEq, Repr

/-- One form record of `parse_forms` (source lines 352-358). -/
structure FormData where
  name : Option String
  id : Option String
  method : String
  action : String
  inputs : List FormInput
deriving DecidableEq, Repr

/-- A `{text, href}` link record. -/
structure LinkInfo where
  text : String
  href : String
deriving DecidableEq, Repr

/-- An `{alt, src}` image record. -/
structure ImageInfo where
  alt : String
  src : String
deriving DecidableEq, Repr

/-- The content snapshot of `extract_section_content` (source lines 317-328). -/
structure SectionContent where
  text_content : String
  links : List LinkInfo
  images : List ImageInfo
  forms : List FormData
deriving DecidableEq, Repr

/-- `PageSection` (source lines 31-36). -/
structure PageSection where
  heading : Option String
  purpose : String
  has_interactive_elements : Bool
  content : SectionContent
deriving DecidableEq, Repr

/-- Embedding of `find_input_label` (source lines 374-397): non-empty
aria-label, else a document-wide `label[for=id]` lookup, else the nearest
enclosing label with the input's own text removed; else `None`. -/
def find_input_label (soup : HtmlNode) (anc : List HtmlNode) (inp : HtmlNode) :
    Option String :=
  let aria := (attr inp "aria-label").getD ""
  if aria ≠ "" then some aria
  else
    let input_id := (attr inp "id").getD ""
    let byFor : Option HtmlNode :=
      if input_id ≠ "" then
        (descendants soup).find? (fun lb =>
          tagOf lb == "label" && attr lb "for" == some input_id)
      else none
    match byFor with
    | some lb => some (getText lb)
    | none =>
      match anc.find? (fun p => tagOf p == "label") with
      | some lb => some (trimS (replaceS (getText lb) (getText inp) ""))
      | none => none

/-- Embedding of the per-form body of `parse_forms` (source lines 350-370). -/
def parse_form_one (base_url : String) (soup : HtmlNode)
    (fa : List HtmlNode × HtmlNode) : FormData :=
  { name := attr fa.2 "name"
    id := attr fa.2 "id"
    method := (attr fa.2 "method").getD "get"
    action := urljoin base_url ((attr fa.2 "action").getD "")
    inputs := ((descWithAnc fa.1 fa.2).filter (fun x =>
        decide (tagOf x.2 ∈ ["input", "select", "textarea"]))).map (fun x =>
      { type := (attr x.2 "type").getD "text"
        name := attr x.2 "name"
        id := attr x.2 "id"
        required := (attr x.2 "required").isSome
        placeholder := attr x.2 "placeholder"
        label := find_input_label soup x.1 x.2 }) }

/-- Embedding of `parse_forms` (source lines 347-372): forms of the given
container, or of the whole document when none is given. -/
def parse_forms (base_url : String) (soup : HtmlNode)
    (container : Option (List HtmlNode × HtmlNode)) : List FormData :=
  let scope := match container with
    | some ca => descWithAnc ca.1 ca.2
    | none => descWithAnc [] soup
  (scope.filter (fun x => tagOf x.2 == "form")).map (parse_form_one base_url soup)

/-- The ordered purpose table of `infer_section_purpose` (source lines
295-304). -/
def section_patterns : List (String × List String) :=
  [("header", ["header", "banner", "top"]),
   ("footer", ["footer", "bottom"]),
   ("sidebar", ["sidebar", "aside"]),
   ("main", ["main", "content", "article"]),
   ("navigation", ["nav", "menu"]),
   ("search", ["search"]),
   ("login", ["login", "signin"]),
   ("form", ["form", "contact"])]

/-- The signal list of `infer_section_purpose` (source lines 288-293):
joined class list, id, role, first 100 characters of text. -/
def sectionSignals (n : HtmlNode) : List String :=
  [" ".intercalate (classes n), (attr n "id").getD "", (attr n "role").getD "",
   String.mk ((getText n).toList.take 100)]

/-- Embedding of `infer_section_purpose` (source lines 286-315). -/
def infer_section_purpose (n : HtmlNode) : String :=
  ((sectionSignals n).findSome? (fun s =>
    (section_patterns.find? (fun pp => reSearchI pp.2 s)).map (fun pp => pp.1))).getD
    "unknown"

/-- Embedding of `extract_section_content` (source lines 317-328). -/
def extract_section_content (base_url : String) (soup : HtmlNode)
    (sa : List HtmlNode × HtmlNode) : SectionContent :=
  { text_content := getText sa.2
    links := ((descendants sa.2).filter (fun d => tagOf d == "a")).map (fun a =>
      { text := getText a, href := urljoin base_url ((attr a "href").getD "") })
    images := ((descendants sa.2).filter (fun d => tagOf d == "img")).map (fun im =>
      { alt := (attr im "alt").getD "", src := urljoin base_url ((attr im "src").getD "") })
    forms := parse_forms base_url soup (some sa) }

/-- Embedding of `extract_sections` (source lines 268-284): containers
tagged section/article/div whose role contains "region"; a `None` container
raises. -/
def extract_sections (base_url : String) (soup : HtmlNode) :
    Option (List HtmlNode × HtmlNode) → Except String (List PageSection)
  | none => .error noneFindAllMsg
  | some ca =>
    .ok (((descWithAnc ca.1 ca.2).filter (fun x =>
        decide (tagOf x.2 ∈ ["section", "article", "div"])
          && isInfixL "region".toList ((attr x.2 "role").getD "").toList)).map
      (fun x =>
        { heading := ((descendants x.2).find? (fun d =>
              decide (tagOf d ∈ headingTags))).map getText
          purpose := infer_section_purpose x.2
          has_interactive_elements := (descendants x.2).any (fun d =>
              decide (tagOf d ∈ ["button", "input", "a", "select"]))
          content := extract_section_content base_url soup x }))

/-- The main-content record of `parse_main_content`. -/
structure MainContent where
  headings : List HeadingInfo
  sections : List PageSection
deriving DecidableEq, Repr

/-- Embedding of `parse_main_content` (source lines 242-250):
`soup.find('main') or soup.find('body')`, then headings and sections of that
container; with neither landmark present the container is `None` and the
first extractor raises. -/
def parse_main_content (base_url : String) (soup : HtmlNode) :
    Except String MainContent := do
  let mainC : Option (List HtmlNode × HtmlNode) :=
    (descWithAnc [] soup).find? (fun x => tagOf x.2 == "main") <|>
      (descWithAnc [] soup).find? (fun x => tagOf x.2 == "body")
  let hs ← extract_heading_hierarchy (mainC.map (fun x => x.2))
  let ss ← extract_sections base_url soup mainC
  return { headings := hs, sections := ss }

/-- A `{text, url}` navigation item. -/
structure NavItem where
  text : String
  url : String
deriving DecidableEq, Repr

/-- One navigation block of `parse_navigation` (source lines 336-343). -/
structure NavigationBlock where
  items : List NavItem
  aria_label : Option String
  location : String
deriving DecidableEq, Repr

/-- Embedding of `parse_navigation` (source lines 330-345).  The source
calls `find_all(['nav', '[role="navigation"]'])`: a *list* argument to
`find_all` matches tag *names*, so the entry `[role="navigation"]` is
compared against tag names (which it can never equal) rather than being
interpreted as a CSS selector. -/
def parse_navigation (base_url : String) (soup : HtmlNode) : List NavigationBlock :=
  let navs := (descWithAnc [] soup).filter (fun x =>
    decide (tagOf x.2 ∈ ["nav", "[role=\"navigation\"]"]))
  navs.map (fun x =>
    { items := ((descendants x.2).filter (fun d => tagOf d == "a")).map (fun a =>
        { text := getText a, url := urljoin base_url ((attr a "href").getD "") })
      aria_label := attr x.2 "aria-label"
      location :=
        if x.1.any (fun p => tagOf p == "header") then "header"
        else if x.1.any (fun p => tagOf p == "footer") then "footer"
        else "other" })

/-- The aggregate structure of `build_semantic_hierarchy` (source lines
232-240); the `structure` key is named `page_structure` (`structure` is a
Lean keyword). -/
structure SemanticStructure where
  title : Option String
  main_content : MainContent
  navigation : List NavigationBlock
  forms : List FormData
deriving DecidableEq, Repr

/-- Model of `self.soup.title.string if self.soup.title else None`: the
first `title` element's unique string child. -/
def soupTitle (soup : HtmlNode) : Option String :=
  match (descendants soup).find? (fun d => tagOf d == "title") with
  | some (.elem _ _ [.text s]) => some s
  | _ => none

/-- Embedding of `build_semantic_hierarchy` (source lines 232-240); the
`AttributeError` of a missing main/body container propagates. -/
def build_semantic_hierarchy (base_url : String) (soup : HtmlNode) :
    Except String SemanticStructure := do
  let mc ← parse_main_content base_url soup
  return { title := soupTitle soup
           main_content := mc
           navigation := parse_navigation base_url soup
           forms := parse_forms base_url soup none }

/-! ### Action catalog, tasks, and `parse_webpage` (source lines 90-124,
399-447) -/

/-- One entry of the action catalog (source lines 408-412). -/
structure ActionSummary where
  element_type : String
  context : ElementContext
  accessibility : AriaLabels
deriving DecidableEq, Repr

/-- Keys in first-occurrence order (Python dict key order under repeated
`actions[purpose].append`). -/
def firstKeys : List String → List String
  | [] => []
  | p :: ps => p :: (firstKeys ps).filter (fun q => q ≠ p)

/-- Embedding of `get_available_actions` (source lines 399-414): bucket the
accumulated actionable elements by purpose, keys in first-occurrence order,
entries in encounter order. -/
def get_available_actions (acts : List ElementSemantics) :
    List (String × List ActionSummary) :=
  (firstKeys (acts.map (fun a => a.purpose))).map (fun p =>
    (p, (acts.filter (fun a => a.purpose == p)).map (fun a =>
      { element_type := a.element_type, context := a.context,
        accessibility := a.aria_labels })))

/-- `TaskDescriptor` variants (source lines 416-447).  For the
form-submission name the source writes `form.get('name', 'Unknown Form')`,
but the form dict always carries a `name` key (possibly `None`), so the
default is dead and the name is the form's. -/
inductive TaskDescriptor where
  | form_submission (name : Option String) (requirements : List (Option String))
      (optional_fields : List (Option String))
  | navigation (available_destinations : List String) (location : String)
  | search (requirements : List String) (location : String)
deriving DecidableEq, Repr

/-- Embedding of `identify_possible_tasks` (source lines 416-447): one task
per form of the current page, one per navigation block of the current page,
then the search task when "search" is a key of the (accumulated) action
catalog. -/
def identify_possible_tasks (base_url : String) (soup : HtmlNode)
    (acts : List ElementSemantics) : List TaskDescriptor :=
  ((parse_forms base_url soup none).map (fun f =>
      TaskDescriptor.form_submission f.name
        ((f.inputs.filter (fun i => i.required)).map (fun i => i.name))
        ((f.inputs.filter (fun i => ¬ i.required)).map (fun i => i.name))))
  ++ ((parse_navigation base_url soup).map (fun nv =>
      TaskDescriptor.navigation (nv.items.map (fun it => it.text)) nv.location))
  ++ (if (get_available_actions acts).any (fun kv => kv.1 == "search")
      then [TaskDescriptor.search ["query"] "search form or input field"]
      else [])

/-- Embedding of `extract_all_links` (source lines 78-88): every anchor
carrying an `href`, with the reference resolved against the base URL. -/
def extract_all_links (base_url : String) (soup : HtmlNode) : List LinkInfo :=
  ((descendants soup).filter (fun d => tagOf d == "a" && (attr d "href").isSome)).map
    (fun a => { text := getText a, href := urljoin base_url ((attr a "href").getD "") })

/-- The parser-instance state `parse_webpage` reads and writes:
`actionable_elements` (never cleared between calls) and `base_url`. -/
structure ParserState where
  actionable_elements : List ElementSemantics
  base_url : String
deriving DecidableEq, Repr

/-- The state set up by `__init__` (source line 55): an empty actionable
map; `base_url` does not exist yet, modelled as the empty string. -/
def initialParserState : ParserState :=
  { actionable_elements := [], base_url := "" }

/-- The page-level result dict of `parse_webpage` (source lines 119-124);
the `structure` key is named `page_structure`. -/
structure PageResult where
  actions : List (String × List ActionSummary)
  page_structure : SemanticStructure
  possible_tasks : List TaskDescriptor
  all_links : List LinkInfo
deriving DecidableEq, Repr

/-- Embedding of `parse_webpage` (source lines 90-124) on an already-parsed
document (fetching is the external collaborator): set `base_url`, extract
the links, *append* the page's actionable elements to the instance state
(the dict is keyed by per-page tree objects and is never cleared), build the
hierarchy — whose `AttributeError` on a page with neither main nor body
propagates as an exception, after the state was already mutated — and
assemble the result from the *accumulated* actionable state. -/
def parse_webpage (st : ParserState) (url : String) (soup : HtmlNode) :
    Except String PageResult × ParserState :=
  let st2 : ParserState :=
    { actionable_elements := st.actionable_elements ++ newActionable url soup,
      base_url := url }
  match build_semantic_hierarchy url soup with
  | .error e => (.error e, st2)
  | .ok sv =>
    (.ok { actions := get_available_actions st2.actionable_elements,
           page_structure := sv,
           possible_tasks := identify_possible_tasks url soup st2.actionable_elements,
           all_links := extract_all_links url soup }, st2)

/-! ### Claim theorems for the extraction pipeline -/

/-- With non-empty visible text, the text is the head of the signal list. -/
theorem purposeSignals_eq_cons (n : HtmlNode) (h : getText n ≠ "") :
    purposeSignals n = getText n ::
      (([attr n "aria-label", attr n "title", attr n "placeholder",
         attr n "name", attr n "id"] ++
        (if classes n ≠ [] then [some (" ".intercalate (classes n))] else
          [])).filterMap id).filter (fun s => s ≠ "") := by
  unfold purposeSignals
  simp [h]

/-- C9: signals are evaluated with the visible text first: whenever an
element's visible text matches some purpose pattern, the inferred purpose is
the one the text determines (the first matching table entry for the text),
whatever the element's id — or any later signal — would have matched. -/
theorem infer_purpose_text_priority (n : HtmlNode) (a : String)
    (h : firstActionFor (getText n) = some a) :
    infer_purpose n = a := by
  have hne : getText n ≠ "" := by
    intro he
    rw [he] at h
    rw [(by decide : firstActionFor "" = (none : Option String))] at h
    cases h
  unfold infer_purpose
  rw [purposeSignals_eq_cons n hne]
  simp [List.findSome?_cons, h]

/-- An anchor whose text says delete but whose id matches the submit
pattern. -/
def exDeleteAnchor : HtmlNode :=
  .elem "a" [("id", "submit-btn")] [.text "Delete item"]

/-- Witness for C9: the text signal ("Delete item") wins over the id signal
("submit-btn"), which matches the distinct purpose "submit". -/
theorem infer_purpose_text_priority_witness :
    infer_purpose exDeleteAnchor = "delete"
    ∧ firstActionFor ((attr exDeleteAnchor "id").getD "") = some "submit" :=
  ⟨infer_purpose_text_priority exDeleteAnchor "delete" (by decide), by decide⟩

/-- A document with neither a `main` nor a `body` element (the markup
collaborator inserts no implicit body; e.g. `html.parser` does not). -/
def exNoBody : HtmlNode :=
  .elem "[document]" [] [.elem "div" [] [.text "hello"]]

/-- C2 counterexample: a page whose tree has neither `main` nor `body` makes
`parse_main_content` raise (return the `AttributeError`), not succeed with
empty headings and sections as the claim states. -/
theorem main_content_missing_counterexample :
    (descWithAnc [] exNoBody).find? (fun x => tagOf x.2 == "main") = none
    ∧ (descWithAnc [] exNoBody).find? (fun x => tagOf x.2 == "body") = none
    ∧ parse_main_content "http://a.com/" exNoBody = .error noneFindAllMsg :=
  ⟨rfl, rfl, rfl⟩

/-- C2 (amended): for every page whose parsed tree contains neither a `main`
nor a `body` element, building the semantic structure *fails* with the
`AttributeError` raised by `container.find_all` on the `None` container,
rather than yielding empty headings and sections. -/
theorem main_content_missing_raises (base_url : String) (soup : HtmlNode)
    (hmain : (descWithAnc [] soup).find? (fun x => tagOf x.2 == "main") = none)
    (hbody : (descWithAnc [] soup).find? (fun x => tagOf x.2 == "body") = none) :
    parse_main_content base_url soup = .error noneFindAllMsg
    ∧ build_semantic_hierarchy base_url soup = .error noneFindAllMsg := by
  have h1 : parse_main_content base_url soup = .error noneFindAllMsg := by
    unfold parse_main_content
    rw [hmain, hbody]
    rfl
  refine ⟨h1, ?_⟩
  unfold build_semantic_hierarchy
  rw [h1]
  rfl

/-- Witness for the amended C2 at the concrete bodyless page. -/
theorem main_content_missing_raises_witness :
    parse_main_content "http://b.com/" exNoBody = .error noneFindAllMsg
    ∧ build_semantic_hierarchy "http://b.com/" exNoBody = .error noneFindAllMsg :=
  main_content_missing_raises "http://b.com/" exNoBody rfl rfl

/-- A page whose only navigation landmark is a `div` with
role="navigation". -/
def exRoleNav : HtmlNode :=
  .elem "[document]" [] [.elem "html" [] [.elem "body" [] [
    .elem "div" [("role", "navigation")] [.elem "a" [("href", "/x")] [.text "X"]]]]]

/-- A page with one true `nav` element. -/
def exTagNav : HtmlNode :=
  .elem "[document]" [] [.elem "html" [] [.elem "body" [] [
    .elem "nav" [] [.elem "a" [("href", "/y")] [.text "Y"]]]]]

/-- C3 (code bug): the page `exRoleNav` carries exactly one nav landmark in
the claim's sense (tag `nav` or role="navigation"), yet `parse_navigation`
yields no NavigationBlock for it, because `find_all(['nav',
'[role="navigation"]'])` compares list entries against tag *names* and the
CSS-selector string can never be a tag name; a true `nav` tag yields one
block as expected. -/
theorem role_navigation_dropped :
    (parse_navigation "http://a.com/" exRoleNav = []
      ∧ ((descWithAnc [] exRoleNav).filter (fun x =>
          tagOf x.2 == "nav" || attr x.2 "role" == some "navigation")).length = 1)
    ∧ (parse_navigation "http://a.com/" exTagNav).length = 1 :=
  ⟨⟨rfl, rfl⟩, rfl⟩

/-- The parser state after `parse_webpage`: the page's actionable elements
are appended to the instance state, never replacing it. -/
theorem parse_webpage_state (st : ParserState) (url : String) (soup : HtmlNode) :
    (parse_webpage st url soup).2
      = { actionable_elements := st.actionable_elements ++ newActionable url soup,
          base_url := url } := by
  simp only [parse_webpage]
  split <;> rfl

/-- Projections of a successful `parse_webpage` result: the actions and
tasks are computed from the *accumulated* actionable state. -/
theorem parse_webpage_ok_proj (st : ParserState) (url : String) (soup : HtmlNode)
    (r : PageResult) (h : (parse_webpage st url soup).1 = .ok r) :
    r.actions = get_available_actions
        (st.actionable_elements ++ newActionable url soup)
    ∧ r.possible_tasks = identify_possible_tasks url soup
        (st.actionable_elements ++ newActionable url soup) := by
  simp only [parse_webpage] at h
  split at h
  · exact absurd h (by simp)
  · dsimp only at h
    injection h with h
    subst h
    exact ⟨rfl, rfl⟩

/-- A purpose occurring among the elements is a key of the catalog. -/
theorem mem_firstKeys (p : String) :
    ∀ ps : List String, p ∈ ps → p ∈ firstKeys ps := by
  intro ps
  induction ps with
  | nil => intro h; cases h
  | cons q qs ih =>
    intro h
    rcases List.mem_cons.mp h with rfl | h
    · exact List.mem_cons_self _ _
    · by_cases hpq : p = q
      · subst hpq; exact List.mem_cons_self _ _
      · refine List.mem_cons_of_mem _ (List.mem_filter.mpr ⟨ih h, ?_⟩)
        simpa using hpq

/-- If some accumulated element has purpose "search", "search" is a key of
the action catalog. -/
theorem search_key_of_mem (acts : List ElementSemantics) (s : ElementSemantics)
    (hs : s ∈ acts) (hp : s.purpose = "search") :
    (get_available_actions acts).any (fun kv => kv.1 == "search") = true := by
  unfold get_available_actions
  rw [List.any_eq_true]
  have hk : "search" ∈ firstKeys (acts.map (fun a => a.purpose)) := by
    refine mem_firstKeys _ _ ?_
    rw [← hp]
    exact List.mem_map_of_mem _ hs
  exact ⟨_, List.mem_map_of_mem _ hk, by simp⟩

/-- If some accumulated element has purpose "search", the task list carries
the search task. -/
theorem search_task_mem (base_url : String) (soup : HtmlNode)
    (acts : List ElementSemantics) (s : ElementSemantics)
    (hs : s ∈ acts) (hp : s.purpose = "search") :
    TaskDescriptor.search ["query"] "search form or input field"
      ∈ identify_possible_tasks base_url soup acts := by
  unfold identify_possible_tasks
  rw [if_pos (search_key_of_mem acts s hs hp)]
  exact List.mem_append.mpr (Or.inr (List.mem_singleton_self _))

/-- C4: the actionable-element state accumulates across `parse_webpage`
calls on one parser instance: after a second page is analyzed, the state is
the union (concatenation) of both pages' classified elements, the returned
`actions` catalog and `possible_tasks` are derived from that union — and in
particular the search task is present whenever the *first* page contributed
a "search"-purposed element, whatever the second page contains. -/
theorem actionable_state_accumulates (url1 url2 : String) (soup1 soup2 : HtmlNode) :
    (parse_webpage (parse_webpage initialParserState url1 soup1).2
        url2 soup2).2.actionable_elements
      = newActionable url1 soup1 ++ newActionable url2 soup2
    ∧ ∀ r2 : PageResult,
      (parse_webpage (parse_webpage initialParserState url1 soup1).2
          url2 soup2).1 = .ok r2 →
      r2.actions = get_available_actions
          (newActionable url1 soup1 ++ newActionable url2 soup2)
      ∧ r2.possible_tasks = identify_possible_tasks url2 soup2
          (newActionable url1 soup1 ++ newActionable url2 soup2)
      ∧ ∀ s ∈ newActionable url1 soup1, s.purpose = "search" →
          TaskDescriptor.search ["query"] "search form or input field"
            ∈ r2.possible_tasks := by
  have hacts : (parse_webpage initialParserState url1 soup1).2.actionable_elements
      = newActionable url1 soup1 := by
    rw [parse_webpage_state]
    simp [initialParserState]
  constructor
  · rw [parse_webpage_state]
    dsimp only
    rw [hacts]
  · intro r2 h2
    have hproj := parse_webpage_ok_proj
      ((parse_webpage initialParserState url1 soup1).2) url2 soup2 r2 h2
    rw [hacts] at hproj
    refine ⟨hproj.1, hproj.2, ?_⟩
    intro s hs hp
    rw [hproj.2]
    exact search_task_mem url2 soup2 _ s (List.mem_append.mpr (Or.inl hs)) hp

/-- First page for the C4 witness: its body holds a search button. -/
def wSoup1 : HtmlNode :=
  .elem "[document]" [] [.elem "body" [] [.elem "button" [] [.text "Search"]]]

/-- Second page for the C4 witness: an empty body, no actionable element and
no search control of its own. -/
def wSoup2 : HtmlNode :=
  .elem "[document]" [] [.elem "body" [] []]

/-- The semantics the search button of `wSoup1` classifies to. -/
def wSearchSem : ElementSemantics :=
  { element_type := "button", purpose := "search",
    context := { section_heading := none, form_name := none,
                 in_navigation := false, in_list := false, url := none },
    aria_labels := { label := none, description := none, role := none,
                     label_text := none },
    is_actionable := true }

/-- The result of analyzing `wSoup2` after `wSoup1` on the same instance:
the search action and the search task leak in from the first page. -/
def wR2 : PageResult :=
  { actions := [("search",
      [{ element_type := "button",
         context := { section_heading := none, form_name := none,
                      in_navigation := false, in_list := false, url := none },
         accessibility := { label := none, description := none, role := none,
                            label_text := none } }])],
    page_structure :=
      { title := none,
        main_content := { headings := [], sections := [] },
        navigation := [], forms := [] },
    possible_tasks := [TaskDescriptor.search ["query"] "search form or input field"],
    all_links := [] }

/-- Witness for C4 at concrete pages: the accumulated state is the union,
and the second page's task list reports the search task contributed by the
first page. -/
theorem actionable_state_accumulates_witness :
    (parse_webpage (parse_webpage initialParserState "http://a.com/p1" wSoup1).2
        "http://a.com/p2" wSoup2).2.actionable_elements
      = newActionable "http://a.com/p1" wSoup1 ++ newActionable "http://a.com/p2" wSoup2
    ∧ TaskDescriptor.search ["query"] "search form or input field"
        ∈ wR2.possible_tasks := by
  constructor
  · exact (actionable_state_accumulates "http://a.com/p1" "http://a.com/p2"
      wSoup1 wSoup2).1
  · exact ((actionable_state_accumulates "http://a.com/p1" "http://a.com/p2"
      wSoup1 wSoup2).2 wR2 rfl).2.2 wSearchSem (by decide) rfl
